import Mathlib

/-!
Verification development for the QR dead-drop file transfer core:
the password-based encryption envelope (encryptFile / decryptFile),
the chunk framer (chunkFile / reconstructFile) and the reception
assembler (the QR-detection handler and the reconstruct-and-decrypt
step of the receiver component).

Bytes are modelled as natural numbers (meaningful values are < 256),
transport text as Lean strings (the sources only ever put ASCII
base64 and JSON in them, so JavaScript UTF-16 lengths coincide with
character counts).  The WebCrypto primitives (PBKDF2 and AES-GCM)
are external to the repository; definitions are parameterised over
them through the CryptoPrim structure, and theorems that need their
correctness take it as an explicit hypothesis at the point of use.
-/

namespace QRDrop

/-! ## Base64 (model of btoa / atob as used by arrayBufferToBase64
and base64ToArrayBuffer in the crypto utility module)

The decoder accepts canonical padded base64 (length a multiple of
four, padding only at the end); the browser atob is in addition
forgiving about missing trailing padding, a fringe the sources never
produce and no claim depends on. -/

/-- The base64 alphabet, in order. -/
def b64chars : List Char :=
  "ABCDEFGHIJKLMNOPQRSTUVWXYZabcdefghijklmnopqrstuvwxyz0123456789+/".data

/-- Character for a six-bit value. -/
def sextetToChar (n : Nat) : Char := b64chars.getD n '?'

/-- Six-bit value of a base64 character, none when the character is
not in the alphabet. -/
def charToSextet (c : Char) : Option Nat :=
  let i := b64chars.indexOf c
  if i < 64 then some i else none

/-- Base64 encoding of a byte list, three bytes to four characters,
with trailing padding. -/
def b64encodeL : List Nat → List Char
  | [] => []
  | [a] => [sextetToChar (a / 4), sextetToChar (a % 4 * 16), '=', '=']
  | [a, b] => [sextetToChar (a / 4), sextetToChar (a % 4 * 16 + b / 16),
               sextetToChar (b % 16 * 4), '=']
  | a :: b :: c :: rest =>
    sextetToChar (a / 4) :: sextetToChar (a % 4 * 16 + b / 16) ::
    sextetToChar (b % 16 * 4 + c / 64) :: sextetToChar (c % 64) :: b64encodeL rest

/-- Decoding of the final four-character block, which may carry
padding. -/
def b64finalBlock (c1 c2 c3 c4 : Char) : Option (List Nat) :=
  (charToSextet c1).bind fun s1 =>
  (charToSextet c2).bind fun s2 =>
  if c3 = '=' then
    if c4 = '=' then some [s1 * 4 + s2 / 16] else none
  else
    (charToSextet c3).bind fun s3 =>
    if c4 = '=' then some [s1 * 4 + s2 / 16, s2 % 16 * 16 + s3 / 4]
    else
      (charToSextet c4).bind fun s4 =>
      some [s1 * 4 + s2 / 16, s2 % 16 * 16 + s3 / 4, s3 % 4 * 64 + s4]

/-- Base64 decoding; none models the atob exception on input that is
not valid base64. -/
def b64decodeL : List Char → Option (List Nat)
  | [] => some []
  | c1 :: c2 :: c3 :: c4 :: rest =>
    if rest.isEmpty then b64finalBlock c1 c2 c3 c4
    else
      (charToSextet c1).bind fun s1 =>
      (charToSextet c2).bind fun s2 =>
      (charToSextet c3).bind fun s3 =>
      (charToSextet c4).bind fun s4 =>
      (b64decodeL rest).bind fun bs =>
      some ((s1 * 4 + s2 / 16) :: (s2 % 16 * 16 + s3 / 4) :: (s3 % 4 * 64 + s4) :: bs)
  | _ => none

/-- String-level encoder, as arrayBufferToBase64 produces. -/
def b64encodeS (bs : List Nat) : String := String.mk (b64encodeL bs)

/-- String-level decoder, as base64ToArrayBuffer consumes. -/
def b64decodeS (s : String) : Option (List Nat) := b64decodeL s.data

/-! ## Envelope codec (encryptFile and decryptFile of the crypto
utility module)

The WebCrypto primitives are outside the repository; they enter the
model through this structure.  pbkdf2 takes the password string (the
TextEncoder step is folded into it), the salt bytes and the iteration
count; the hash (SHA-256) and the derived key length (256 bits) are
fixed constants at both call sites in the source and are therefore
not parameters.  gcmEnc and gcmDec take key bytes, iv bytes and the
payload; gcmDec returns none when the subtle.decrypt promise rejects
(failed tag verification, unusable iv, and so on). -/
structure CryptoPrim where
  pbkdf2 : String → List Nat → Nat → List Nat
  gcmEnc : List Nat → List Nat → List Nat → List Nat
  gcmDec : List Nat → List Nat → List Nat → Option (List Nat)

/-- The distinct throw sites of encryptFile.  The source throws plain
Error values with distinct messages; the constructors name the three
guard branches in order. -/
inductive EncErr where
  | emptyFile
  | emptyPassword
  | fileTooLarge
  deriving DecidableEq

/-- The distinct failure stages of decryptFile.  badBase64 is the atob
exception inside base64ToArrayBuffer; cipherFailed is the rejection of
subtle.decrypt.  The source catch block wraps both in one generic
Error whose text starts with a fixed decryption-failed prefix. -/
inductive DecErr where
  | badBase64
  | cipherFailed
  deriving DecidableEq

/-- MAX_FILE_SIZE constant of the crypto utility module. -/
def MAX_FILE_SIZE : Nat := 50 * 1024 * 1024

/-- encryptFile: the three input guards, then PBKDF2 key derivation
with 100000 iterations, AES-GCM encryption, and base64 encoding of
salt, iv and ciphertext concatenated in that order.  The fresh random
salt (16 bytes) and iv (12 bytes) are explicit arguments here because
the source draws them from a random source. -/
def encryptFile (P : CryptoPrim) (fileBytes : List Nat) (password : String)
    (salt iv : List Nat) : Except EncErr String :=
  if fileBytes.length = 0 then .error .emptyFile
  else if password.length < 1 then .error .emptyPassword
  else if MAX_FILE_SIZE < fileBytes.length then .error .fileTooLarge
  else
    let key := P.pbkdf2 password salt 100000
    let ct := P.gcmEnc key iv fileBytes
    .ok (b64encodeS (salt ++ iv ++ ct))

/-- decryptFile: base64 decoding, slicing the byte buffer at offsets
16 and 28, key re-derivation from the password and the extracted salt
with the same fixed PBKDF2 parameters, then AES-GCM decryption.  On
success the source wraps the plaintext and the caller-supplied
filename into a File value, modelled as the returned pair.  There is
no length validation on the decoded bytes. -/
def decryptFile (P : CryptoPrim) (encryptedData : String) (password : String)
    (filename : String) : Except DecErr (List Nat × String) :=
  match b64decodeS encryptedData with
  | none => .error .badBase64
  | some bytes =>
    let salt := bytes.take 16
    let iv := (bytes.drop 16).take 12
    let encrypted := bytes.drop 28
    let key := P.pbkdf2 password salt 100000
    match P.gcmDec key iv encrypted with
    | none => .error .cipherFailed
    | some pt => .ok (pt, filename)

/-! ## Chunk framer (chunkFile and reconstructFile)

The source loop advances currentIndex by
min 1500 (floor of chunkSizeBytes times 0.5) characters per
iteration.  When that step is zero the JavaScript while loop never
terminates; the model makes the loop fuel-explicit, with fuel one
more than the text length, which is enough for every positive step
size, so a none result captures exactly the non-terminating case. -/

/-- One-to-one model of the while loop of chunkFile: i is
currentIndex, each iteration slices data from i to
min (i + m) data.length and appends the slice. -/
def chunkFileAux (m : Nat) (data : List Char) : Nat → Nat → Option (List (List Char))
  | i, 0 => if i < data.length then none else some []
  | i, fuel + 1 =>
    if i < data.length then
      let e := min (i + m) data.length
      match chunkFileAux m data e fuel with
      | none => none
      | some rest => some (((data.drop i).take (e - i)) :: rest)
    else some []

/-- chunkFile: computes the per-chunk character budget
min 1500 (chunkSizeBytes / 2) and runs the slicing loop. -/
def chunkFile (data : String) (chunkSizeBytes : Nat) : Option (List String) :=
  let maxCharsPerChunk := min 1500 (chunkSizeBytes / 2)
  (chunkFileAux maxCharsPerChunk data.data 0 (data.data.length + 1)).map
    (fun l => l.map String.mk)

/-- reconstructFile: concatenates the chunks in list order with no
separator. -/
def reconstructFile (chunks : List String) : String := String.join chunks

/-! ## Reception assembler (handleQRDetected and
reconstructAndDecrypt of the receiver component)

The embedded receiver defined in the QR display source file is
modelled: it validates that the parsed record has a metadata object
with numeric index and total, rejects frames whose filename differs
from the session filename, and skips duplicates.  The variant in the
stand-alone receiver file lacks the structural validation and the
filename check but is otherwise identical.  React state updates
issued before an early return still commit, which the model reflects
by threading the partially updated state into every outcome. -/

/-- One parsed QR chunk: the metadata record plus the payload slice.
index and total are JavaScript numbers, modelled as integers (the
source never checks integrality or range). -/
structure Frame where
  index : Int
  total : Int
  filename : String
  size : Int
  data : String
  deriving DecidableEq

/-- Receiver component state: the chunks map in insertion order, the
session total and the session filename. -/
structure RState where
  chunks : List (Int × Frame)
  totalChunks : Int
  filename : String
  deriving DecidableEq

/-- The state a fresh or reset session holds. -/
def initialRState : RState := ⟨[], 0, ""⟩

/-- Map.has on the chunks map. -/
def hasKey (l : List (Int × Frame)) (k : Int) : Bool :=
  l.any (fun p => p.1 == k)

/-- Observable outcomes of one handleQRDetected call: the catch branch
toast, the wrong-file toast, the silent duplicate return, and the
scanned toast whose flag records whether the all-chunks-received toast
also fired. -/
inductive ObserveOutcome where
  | foreignData
  | wrongFile
  | duplicateIgnored
  | accepted (complete : Bool)
  deriving DecidableEq

/-- handleQRDetected.  The input is none when JSON.parse throws or the
structural validation (metadata present with numeric index and total)
throws, both of which land in the same catch branch.  When
totalChunks is zero the call first adopts the frame total and
filename; the filename comparison and the duplicate lookup then still
read the pre-call state, exactly as the stale closure values in the
source do. -/
def observe (st : RState) (input : Option Frame) : RState × ObserveOutcome :=
  match input with
  | none => (st, .foreignData)
  | some fr =>
    let st1 : RState :=
      if st.totalChunks = 0 then
        { st with totalChunks := fr.total, filename := fr.filename }
      else st
    if st.filename ≠ "" ∧ fr.filename ≠ st.filename then (st1, .wrongFile)
    else if hasKey st.chunks fr.index then (st1, .duplicateIgnored)
    else
      let newChunks := st.chunks ++ [(fr.index, fr)]
      ({ st1 with chunks := newChunks },
       .accepted (decide ((newChunks.length : Int) = fr.total)))

/-- Sorting of the stored frames by metadata index, as the comparator
passed to Array.sort orders them.  Stored indices are pairwise
distinct (they are the map keys), so any comparison sort yields the
same result; insertion sort is used here. -/
def insertByIndex (fr : Frame) : List Frame → List Frame
  | [] => [fr]
  | g :: gs => if fr.index < g.index then fr :: g :: gs else g :: insertByIndex fr gs

/-- See insertByIndex. -/
def sortByIndex : List Frame → List Frame
  | [] => []
  | f :: fs => insertByIndex f (sortByIndex fs)

/-- Observable outcomes of one reconstructAndDecrypt call: the
password-required toast, the missing-chunks toast carrying the count
still needed, the catch-branch failure toast, and the successful
download of the decrypted bytes. -/
inductive FinalizeOutcome where
  | passwordRequired
  | incomplete (needed : Int)
  | decryptFailed
  | success (file : List Nat)
  deriving DecidableEq

/-- reconstructAndDecrypt.  Guards: empty password, then a size
comparison of the chunks map against the session total.  Then the
stored frames are sorted by index, their payloads joined and passed to
decryptFile.  Only the success path resets the session state; the
catch branch leaves every session field untouched. -/
def finalize (P : CryptoPrim) (st : RState) (password : String) :
    RState × FinalizeOutcome :=
  if password = "" then (st, .passwordRequired)
  else if (st.chunks.length : Int) ≠ st.totalChunks then
    (st, .incomplete (st.totalChunks - st.chunks.length))
  else
    let sorted := sortByIndex (st.chunks.map Prod.snd)
    let encryptedData := reconstructFile (sorted.map Frame.data)
    match decryptFile P encryptedData password st.filename with
    | .ok r => (initialRState, .success r.1)
    | .error _ => (st, .decryptFailed)

/-! ## Concrete instances for witnesses and counterexamples -/

/-- Primitive instance whose cipher is the identity; it satisfies the
round-trip and byte-range hypotheses at the concrete inputs the
witnesses use. -/
def primId : CryptoPrim where
  pbkdf2 := fun _ _ _ => []
  gcmEnc := fun _ _ pt => pt
  gcmDec := fun _ _ ct => some ct

/-- Primitive instance whose decryption always rejects, the behaviour
of AES-GCM on a ciphertext too short to carry a tag or on an empty
iv. -/
def primRej : CryptoPrim where
  pbkdf2 := fun _ _ _ => []
  gcmEnc := fun _ _ pt => pt
  gcmDec := fun _ _ _ => none

/-- Sample frame with index 0 of a two-frame session. -/
def frA : Frame := ⟨0, 2, "a.txt", 3, "AA"⟩

/-- Sample frame with index 1 of a two-frame session. -/
def frB : Frame := ⟨1, 2, "a.txt", 3, "AA"⟩

/-- Session holding both sample frames, ready to finalize. -/
def stPair : RState := ⟨[(0, frA), (1, frB)], 2, "a.txt"⟩

/-- Session holding only the index-0 sample frame: index 1 missing. -/
def stOnlyA : RState := ⟨[(0, frA)], 2, "a.txt"⟩

/-- Session holding only the index-1 sample frame: index 0 missing. -/
def stOnlyB : RState := ⟨[(1, frB)], 2, "a.txt"⟩

/-! ## Helper lemmas: base64 -/

/-- Decoding inverts the character table on six-bit values. -/
theorem charToSextet_sextetToChar :
    ∀ n : Nat, n < 64 → charToSextet (sextetToChar n) = some n := by
  decide

/-- Alphabet characters are never the padding character. -/
theorem sextetToChar_ne_pad : ∀ n : Nat, n < 64 → sextetToChar n ≠ '=' := by
  decide

/-- Encoding a non-empty byte list yields a non-empty text. -/
theorem b64encodeL_ne_nil : ∀ bs : List Nat, bs ≠ [] → b64encodeL bs ≠ []
  | [], h => absurd rfl h
  | [_], _ => by simp [b64encodeL]
  | [_, _], _ => by simp [b64encodeL]
  | _ :: _ :: _ :: _, _ => by simp [b64encodeL]

/-- Base64 round trip on byte lists. -/
theorem b64_roundTrip :
    ∀ bs : List Nat, (∀ x ∈ bs, x < 256) → b64decodeL (b64encodeL bs) = some bs
  | [], _ => rfl
  | [a], h => by
    have ha : a < 256 := h a (by simp)
    have h1 := charToSextet_sextetToChar (a / 4) (by omega)
    have h2 := charToSextet_sextetToChar (a % 4 * 16) (by omega)
    simp [b64encodeL, b64decodeL, b64finalBlock, h1, h2]
    omega
  | [a, b], h => by
    have ha : a < 256 := h a (by simp)
    have hb : b < 256 := h b (by simp)
    have h1 := charToSextet_sextetToChar (a / 4) (by omega)
    have h2 := charToSextet_sextetToChar (a % 4 * 16 + b / 16) (by omega)
    have h3 := charToSextet_sextetToChar (b % 16 * 4) (by omega)
    have hne := sextetToChar_ne_pad (b % 16 * 4) (by omega)
    simp [b64encodeL, b64decodeL, b64finalBlock, h1, h2, h3, hne]
    omega
  | [a, b, c], h => by
    have ha : a < 256 := h a (by simp)
    have hb : b < 256 := h b (by simp)
    have hc : c < 256 := h c (by simp)
    have h1 := charToSextet_sextetToChar (a / 4) (by omega)
    have h2 := charToSextet_sextetToChar (a % 4 * 16 + b / 16) (by omega)
    have h3 := charToSextet_sextetToChar (b % 16 * 4 + c / 64) (by omega)
    have h4 := charToSextet_sextetToChar (c % 64) (by omega)
    have hne3 := sextetToChar_ne_pad (b % 16 * 4 + c / 64) (by omega)
    have hne4 := sextetToChar_ne_pad (c % 64) (by omega)
    simp [b64encodeL, b64decodeL, b64finalBlock, h1, h2, h3, h4, hne3, hne4]
    omega
  | a :: b :: c :: r :: rs, h => by
    have ha : a < 256 := h a (by simp)
    have hb : b < 256 := h b (by simp)
    have hc : c < 256 := h c (by simp)
    have h1 := charToSextet_sextetToChar (a / 4) (by omega)
    have h2 := charToSextet_sextetToChar (a % 4 * 16 + b / 16) (by omega)
    have h3 := charToSextet_sextetToChar (b % 16 * 4 + c / 64) (by omega)
    have h4 := charToSextet_sextetToChar (c % 64) (by omega)
    have ih := b64_roundTrip (r :: rs) (fun x hx => h x (by simp at hx ⊢; tauto))
    have hne : b64encodeL (r :: rs) ≠ [] := b64encodeL_ne_nil _ (by simp)
    show b64decodeL (_ :: _ :: _ :: _ :: b64encodeL (r :: rs)) = _
    rw [b64decodeL]
    simp [List.isEmpty_iff, hne, h1, h2, h3, h4, ih]
    omega

/-- String-level base64 round trip. -/
theorem b64S_roundTrip (bs : List Nat) (h : ∀ x ∈ bs, x < 256) :
    b64decodeS (b64encodeS bs) = some bs :=
  b64_roundTrip bs h

/-! ## Helper lemmas: chunk framer -/

/-- The slicing loop, given a positive step size and fuel at least the
number of unread characters, yields slices of length at most the step
size whose concatenation is the unread suffix. -/
theorem chunkFileAux_spec (m : Nat) (hm : 1 ≤ m) (data : List Char) :
    ∀ fuel i, data.length ≤ i + fuel →
      ∃ l, chunkFileAux m data i fuel = some l ∧
        l.flatten = data.drop i ∧ ∀ c ∈ l, c.length ≤ m := by
  intro fuel
  induction fuel with
  | zero =>
    intro i h
    refine ⟨[], ?_, ?_, by simp⟩
    · simp [chunkFileAux]
      omega
    · simp [List.drop_eq_nil_of_le (by omega : data.length ≤ i)]
  | succ fuel ih =>
    intro i h
    by_cases hi : i < data.length
    · have he : data.length ≤ min (i + m) data.length + fuel := by omega
      obtain ⟨l, hl, hflat, hlen⟩ := ih (min (i + m) data.length) he
      refine ⟨(data.drop i).take (min (i + m) data.length - i) :: l, ?_, ?_, ?_⟩
      · simp [chunkFileAux, hi, hl]
      · simp only [List.flatten_cons, hflat]
        have hdd : data.drop (min (i + m) data.length) =
            (data.drop i).drop (min (i + m) data.length - i) := by
          rw [List.drop_drop]
          congr 1
          omega
        rw [hdd, List.take_append_drop]
      · intro c hc
        rcases List.mem_cons.mp hc with hc | hc
        · subst hc
          have := List.length_take (min (i + m) data.length - i) (data.drop i)
          omega
        · exact hlen c hc
    · refine ⟨[], ?_, ?_, by simp⟩
      · simp [chunkFileAux, hi]
      · simp [List.drop_eq_nil_of_le (by omega : data.length ≤ i)]

/-- With step size zero the loop makes no progress: no amount of fuel
suffices once there is at least one unread character, the fuel-free
image of the source loop running forever. -/
theorem chunkFileAux_zero_step (data : List Char) :
    ∀ fuel i, i < data.length → chunkFileAux 0 data i fuel = none := by
  intro fuel
  induction fuel with
  | zero => intro i hi; simp [chunkFileAux, hi]
  | succ fuel ih =>
    intro i hi
    rw [chunkFileAux, if_pos hi]
    have he : min (i + 0) data.length = i := by omega
    rw [he]
    simp [ih i hi]

/-- String.join over packed character lists is packing of the
flattened list. -/
theorem foldl_append_mk (l : List (List Char)) :
    ∀ acc : String,
      List.foldl (fun r s => r ++ s) acc (l.map String.mk) = ⟨acc.data ++ l.flatten⟩ := by
  induction l with
  | nil => intro acc; simp
  | cons c cs ih =>
    intro acc
    simp only [List.map_cons, List.foldl_cons, ih, String.data_append, List.flatten_cons]
    congr 1
    simp

/-- A string other than the empty string has positive length. -/
theorem strLength_pos (s : String) (h : s ≠ "") : 1 ≤ s.length := by
  cases s with
  | mk data =>
    cases data with
    | nil => exact absurd rfl h
    | cons c cs => simp [String.length]

/-! ## Claim theorems -/

/-- C1: for every non-empty byte buffer and non-empty password, the
envelope produced by encryptFile base64-encodes salt, iv and
ciphertext in that order, and decryptFile with the same password
splits the decoded bytes at offsets 16 and 28, re-derives the key
from the password and the extracted salt with the same fixed PBKDF2
parameters, and returns exactly the original bytes; the hypotheses
state correctness of the external AES-GCM primitive at the single
key, iv and plaintext this call uses, plus the byte ranges and the
fixed salt and iv sizes the source draws from its random source. -/
theorem encryptFile_decryptFile_roundTrip
    (P : CryptoPrim) (fileBytes : List Nat) (password : String)
    (salt iv : List Nat) (filename : String)
    (hsalt : salt.length = 16) (hiv : iv.length = 12)
    (hsaltB : ∀ x ∈ salt, x < 256) (hivB : ∀ x ∈ iv, x < 256)
    (hctB : ∀ x ∈ P.gcmEnc (P.pbkdf2 password salt 100000) iv fileBytes, x < 256)
    (hdec : P.gcmDec (P.pbkdf2 password salt 100000) iv
      (P.gcmEnc (P.pbkdf2 password salt 100000) iv fileBytes) = some fileBytes)
    (hne : fileBytes ≠ []) (hpw : password ≠ "")
    (hsz : fileBytes.length ≤ MAX_FILE_SIZE) :
    ∃ env,
      env = b64encodeS (salt ++ iv ++ P.gcmEnc (P.pbkdf2 password salt 100000) iv fileBytes) ∧
      encryptFile P fileBytes password salt iv = .ok env ∧
      decryptFile P env password filename = .ok (fileBytes, filename) := by
  refine ⟨_, rfl, ?_, ?_⟩
  · have h0 : ¬ fileBytes.length = 0 := fun h => hne (List.length_eq_zero.mp h)
    have hpw1 : ¬ password.length < 1 := by
      have := strLength_pos password hpw
      omega
    have hb : ¬ MAX_FILE_SIZE < fileBytes.length := by omega
    simp [encryptFile, h0, hpw1, hb]
  · have hbytes :
        ∀ x ∈ salt ++ iv ++ P.gcmEnc (P.pbkdf2 password salt 100000) iv fileBytes,
          x < 256 := by
      intro x hx
      simp only [List.append_assoc, List.mem_append] at hx
      rcases hx with hx | hx | hx
      · exact hsaltB x hx
      · exact hivB x hx
      · exact hctB x hx
    have hdecode := b64S_roundTrip _ hbytes
    have h16 :
        (salt ++ iv ++ P.gcmEnc (P.pbkdf2 password salt 100000) iv fileBytes).take 16
          = salt := by
      rw [List.append_assoc, ← hsalt, List.take_left]
    have hd16 :
        (salt ++ iv ++ P.gcmEnc (P.pbkdf2 password salt 100000) iv fileBytes).drop 16
          = iv ++ P.gcmEnc (P.pbkdf2 password salt 100000) iv fileBytes := by
      rw [List.append_assoc, ← hsalt, List.drop_left]
    have h28 :
        (salt ++ iv ++ P.gcmEnc (P.pbkdf2 password salt 100000) iv fileBytes).drop 28
          = P.gcmEnc (P.pbkdf2 password salt 100000) iv fileBytes := by
      have hlen : (salt ++ iv).length = 28 := by
        simp [hsalt, hiv]
      rw [← hlen, List.drop_left]
    rw [decryptFile, hdecode]
    simp only [h16, hd16, h28]
    rw [← hiv, List.take_left, hiv] at *
    simp [hdec]

/-- C1 witness: the round trip at a concrete three-byte file, the
password pw, an all-zero salt and iv, and the identity primitive. -/
theorem encryptFile_decryptFile_roundTrip_witness :
    ∃ env,
      env = b64encodeS (List.replicate 16 0 ++ List.replicate 12 0 ++
        primId.gcmEnc (primId.pbkdf2 "pw" (List.replicate 16 0) 100000)
          (List.replicate 12 0) [1, 2, 3]) ∧
      encryptFile primId [1, 2, 3] "pw" (List.replicate 16 0) (List.replicate 12 0) = .ok env ∧
      decryptFile primId env "pw" "a.txt" = .ok ([1, 2, 3], "a.txt") :=
  encryptFile_decryptFile_roundTrip primId [1, 2, 3] "pw"
    (List.replicate 16 0) (List.replicate 12 0) "a.txt"
    (by decide) (by decide) (by decide) (by decide) (by decide) (by decide)
    (by decide) (by decide) (by decide)

/-- C5: encryptFile with an empty byte buffer fails on the invalid
file guard; with a non-empty buffer and empty password it fails on the
password guard; with a non-empty buffer and non-empty password
neither of those two input guards can be the error, the only
remaining error branch being the size ceiling. -/
theorem encryptFile_empty_input_invalid
    (P : CryptoPrim) (fileBytes : List Nat) (password : String) (salt iv : List Nat) :
    (fileBytes = [] → encryptFile P fileBytes password salt iv = .error .emptyFile) ∧
    (fileBytes ≠ [] → password = "" →
      encryptFile P fileBytes password salt iv = .error .emptyPassword) ∧
    (fileBytes ≠ [] → password ≠ "" →
      ∀ e, encryptFile P fileBytes password salt iv = .error e → e = .fileTooLarge) := by
  refine ⟨?_, ?_, ?_⟩
  · intro h
    subst h
    simp [encryptFile]
  · intro hne hpw
    subst hpw
    have h0 : ¬ fileBytes.length = 0 := fun h => hne (List.length_eq_zero.mp h)
    simp [encryptFile, h0, String.length]
  · intro hne hpw e he
    have h0 : ¬ fileBytes.length = 0 := fun h => hne (List.length_eq_zero.mp h)
    have hpw1 : ¬ password.length < 1 := by
      have := strLength_pos password hpw
      omega
    by_cases hb : MAX_FILE_SIZE < fileBytes.length
    · simp [encryptFile, h0, hpw1, hb] at he
      exact he.symm
    · simp [encryptFile, h0, hpw1, hb] at he

/-- C5 witness: the two guard conclusions at concrete inputs. -/
theorem encryptFile_empty_input_invalid_witness :
    encryptFile primId [] "pw" [] [] = .error .emptyFile ∧
    encryptFile primId [7] "" [] [] = .error .emptyPassword :=
  ⟨(encryptFile_empty_input_invalid primId [] "pw" [] []).1 rfl,
   (encryptFile_empty_input_invalid primId [7] "" [] []).2.1 (by simp) rfl⟩

/-- C10: any byte buffer longer than the 50 MiB ceiling is rejected
by an input guard before any key derivation or encryption, so no
envelope is produced; when the password is non-empty the error is
precisely the file-too-large branch. -/
theorem encryptFile_max_size_rejected
    (P : CryptoPrim) (fileBytes : List Nat) (password : String) (salt iv : List Nat)
    (hbig : MAX_FILE_SIZE < fileBytes.length) :
    (∃ e, encryptFile P fileBytes password salt iv = .error e) ∧
    (password ≠ "" → encryptFile P fileBytes password salt iv = .error .fileTooLarge) := by
  have h0 : ¬ fileBytes.length = 0 := by
    intro h
    rw [h] at hbig
    exact absurd hbig (by simp [MAX_FILE_SIZE])
  constructor
  · by_cases hpw1 : password.length < 1
    · exact ⟨.emptyPassword, by simp [encryptFile, h0, hpw1]⟩
    · exact ⟨.fileTooLarge, by simp [encryptFile, h0, hpw1, hbig]⟩
  · intro hpw
    have hpw1 : ¬ password.length < 1 := by
      have := strLength_pos password hpw
      omega
    simp [encryptFile, h0, hpw1, hbig]

/-- C10 witness: a buffer of 52428801 zero bytes is rejected with the
file-too-large error. -/
theorem encryptFile_max_size_rejected_witness :
    MAX_FILE_SIZE < (List.replicate 52428801 0).length ∧
    encryptFile primId (List.replicate 52428801 0) "pw" [] [] = .error .fileTooLarge :=
  ⟨by rw [List.length_replicate]; norm_num [MAX_FILE_SIZE],
   (encryptFile_max_size_rejected primId (List.replicate 52428801 0) "pw" [] []
     (by rw [List.length_replicate]; norm_num [MAX_FILE_SIZE])).2 (by decide)⟩

/-- C2 counterexample: at capacity 1 the per-chunk budget
min 1500 (1 / 2) is zero, the loop never advances, and chunkFile
yields no result however much fuel it is given (see
chunkFileAux_zero_step); the claim asserts termination with a valid
chunk list for every capacity at least 1. -/
theorem chunkFile_capacity_one_no_result : chunkFile "ab" 1 = none := by decide

/-- C2 amended: for every transport text and every capacity of at
least 2, chunkFile terminates with a finite chunk list, every chunk
has length at most the capacity (in fact at most
min 1500 (capacity / 2)), and reconstructFile restores the original
text exactly. -/
theorem chunkFile_reconstructFile_roundTrip (data : String) (C : Nat) (hC : 2 ≤ C) :
    ∃ l, chunkFile data C = some l ∧ reconstructFile l = data ∧
      ∀ c ∈ l, c.length ≤ C := by
  have hm : 1 ≤ min 1500 (C / 2) := by omega
  obtain ⟨l, hl, hflat, hlen⟩ :=
    chunkFileAux_spec (min 1500 (C / 2)) hm data.data (data.data.length + 1) 0 (by omega)
  refine ⟨l.map String.mk, ?_, ?_, ?_⟩
  · show (chunkFileAux (min 1500 (C / 2)) data.data 0 (data.data.length + 1)).map
        (fun l => l.map String.mk) = some (l.map String.mk)
    rw [hl]
    rfl
  · have hj : reconstructFile (l.map String.mk) = ⟨"".data ++ l.flatten⟩ :=
      foldl_append_mk l ""
    rw [hj]
    simp only [hflat, List.drop_zero]
    rfl
  · intro c hc
    simp only [List.mem_map] at hc
    obtain ⟨cl, hcl, rfl⟩ := hc
    have hc' := hlen cl hcl
    show (String.mk cl).length ≤ C
    have hs : (String.mk cl).length = cl.length := rfl
    omega

/-- C2 witness: text abcde at capacity 4 chunks into slices of at
most two characters and joins back to abcde. -/
theorem chunkFile_reconstructFile_roundTrip_witness :
    2 ≤ 4 ∧ ∃ l, chunkFile "abcde" 4 = some l ∧ reconstructFile l = "abcde" ∧
      ∀ c ∈ l, c.length ≤ 4 :=
  ⟨by decide, chunkFile_reconstructFile_roundTrip "abcde" 4 (by decide)⟩

/-- C3 counterexample: with the session fixed at total 2 and filename
a.txt, a frame carrying the same filename but total 5 is not rejected:
it is stored and the call reports acceptance, while the claim
requires a session-mismatch rejection with unchanged state for any
total disagreement. -/
theorem observe_total_mismatch_accepted :
    observe ⟨[(0, ⟨0, 2, "a.txt", 3, "AA"⟩)], 2, "a.txt"⟩
        (some ⟨1, 5, "a.txt", 3, "AA"⟩) =
      (⟨[(0, ⟨0, 2, "a.txt", 3, "AA"⟩), (1, ⟨1, 5, "a.txt", 3, "AA"⟩)], 2, "a.txt"⟩,
       .accepted false) := by
  decide

/-- C3 amended: once the session total is fixed, a frame whose
filename disagrees with the non-empty session filename is rejected
with the wrong-file outcome and the state, chunk map included, is
unchanged; the session total is never compared, so a frame with
matching filename, fresh index and a different total is accepted and
stored. -/
theorem observe_filename_mismatch_policy (st : RState) (fr : Frame)
    (htot : st.totalChunks ≠ 0) :
    ((st.filename ≠ "" ∧ fr.filename ≠ st.filename) →
      observe st (some fr) = (st, .wrongFile)) ∧
    (fr.filename = st.filename → hasKey st.chunks fr.index = false →
      fr.total ≠ st.totalChunks →
      observe st (some fr) =
        (⟨st.chunks ++ [(fr.index, fr)], st.totalChunks, st.filename⟩,
         .accepted (decide ((st.chunks.length + 1 : Int) = fr.total)))) := by
  constructor
  · intro hmis
    simp [observe, htot, hmis]
  · intro hfn hdup htne
    have hmis : ¬ (st.filename ≠ "" ∧ fr.filename ≠ st.filename) :=
      fun hx => hx.2 hfn
    simp [observe, htot, hmis, hdup]

/-- C3 witness: the rejection branch at a concrete mismatching frame
and the acceptance branch at a concrete frame with a disagreeing
total. -/
theorem observe_filename_mismatch_policy_witness :
    observe ⟨[(0, ⟨0, 2, "a.txt", 3, "AA"⟩)], 2, "a.txt"⟩
        (some ⟨1, 2, "b.txt", 3, "AA"⟩) =
      (⟨[(0, ⟨0, 2, "a.txt", 3, "AA"⟩)], 2, "a.txt"⟩, .wrongFile) ∧
    observe ⟨[(0, ⟨0, 2, "a.txt", 3, "AA"⟩)], 2, "a.txt"⟩
        (some ⟨1, 7, "a.txt", 3, "AA"⟩) =
      (⟨[(0, ⟨0, 2, "a.txt", 3, "AA"⟩), (1, ⟨1, 7, "a.txt", 3, "AA"⟩)], 2, "a.txt"⟩,
       .accepted false) :=
  ⟨(observe_filename_mismatch_policy ⟨[(0, ⟨0, 2, "a.txt", 3, "AA"⟩)], 2, "a.txt"⟩
      ⟨1, 2, "b.txt", 3, "AA"⟩ (by decide)).1 (by decide),
   ((observe_filename_mismatch_policy ⟨[(0, ⟨0, 2, "a.txt", 3, "AA"⟩)], 2, "a.txt"⟩
      ⟨1, 7, "a.txt", 3, "AA"⟩ (by decide)).2 rfl (by decide) (by decide)).trans
     (by decide)⟩

/-- C7 counterexample: a frame with index 5 and total 3 passes the
structural validation (metadata present with numeric index and
total), is accepted into an empty session and stored at key 5, even
though 5 is outside the range the claim says every stored frame
satisfies. -/
theorem observe_out_of_range_index_accepted :
    observe initialRState (some ⟨5, 3, "x", 1, "QQ"⟩) =
      (⟨[(5, ⟨5, 3, "x", 1, "QQ"⟩)], 3, "x"⟩, .accepted false) ∧
    ¬ ((⟨5, 3, "x", 1, "QQ"⟩ : Frame).index < (⟨5, 3, "x", 1, "QQ"⟩ : Frame).total) := by
  decide

/-- C7 amended: a raw text that fails to parse or fails the
structural validation (metadata object present, numeric index and
total) yields the foreign-data outcome and leaves the state entirely
unchanged; but the validation checks neither integrality nor the
range of the index, nor the presence of the other fields, so any
frame passing the filename and duplicate checks is accepted and
stored at its index, whatever integer values its index and total
hold. -/
theorem observe_validation_policy :
    (∀ st : RState, observe st none = (st, .foreignData)) ∧
    (∀ (st : RState) (fr : Frame),
      ¬ (st.filename ≠ "" ∧ fr.filename ≠ st.filename) →
      hasKey st.chunks fr.index = false →
      observe st (some fr) =
        (⟨st.chunks ++ [(fr.index, fr)],
          if st.totalChunks = 0 then fr.total else st.totalChunks,
          if st.totalChunks = 0 then fr.filename else st.filename⟩,
         .accepted (decide ((st.chunks.length + 1 : Int) = fr.total)))) := by
  constructor
  · intro st
    rfl
  · intro st fr hmis hdup
    by_cases htot : st.totalChunks = 0 <;>
      simp [observe, htot, hmis, hdup]

/-- C7 witness: the foreign-data branch at the empty session and the
acceptance branch at a frame with negative index. -/
theorem observe_validation_policy_witness :
    observe initialRState none = (initialRState, .foreignData) ∧
    observe initialRState (some ⟨-1, 4, "y", 2, "ZZ"⟩) =
      (⟨[(-1, ⟨-1, 4, "y", 2, "ZZ"⟩)], 4, "y"⟩, .accepted false) :=
  ⟨observe_validation_policy.1 initialRState,
   (observe_validation_policy.2 initialRState ⟨-1, 4, "y", 2, "ZZ"⟩
     (by simp [initialRState]) (by decide)).trans (by decide)⟩

/-- C8: once a frame has been accepted, observing that same frame
again, any number of times, returns the duplicate-ignored outcome and
leaves the stored chunk map, the session total and the session
filename exactly as they were after the first acceptance. -/
theorem observe_duplicate_idempotent (st st' : RState) (fr : Frame) (b : Bool)
    (h : observe st (some fr) = (st', .accepted b)) :
    observe st' (some fr) = (st', .duplicateIgnored) ∧
    ∀ n : Nat, Nat.iterate (fun s => (observe s (some fr)).1) n st' = st' := by
  have main : observe st' (some fr) = (st', .duplicateIgnored) := by
    by_cases h0 : st.totalChunks = 0
    · by_cases h1 : st.filename ≠ "" ∧ fr.filename ≠ st.filename
      · simp [observe, h0, h1, Prod.ext_iff] at h
      · by_cases h2 : hasKey st.chunks fr.index
        · simp [observe, h0, h1, h2, Prod.ext_iff] at h
        · simp [observe, h0, h1, h2, Prod.ext_iff] at h
          obtain ⟨hst, hb⟩ := h
          subst hst
          by_cases hft : fr.total = 0 <;>
            simp [observe, hasKey, List.any_append, hft]
    · by_cases h1 : st.filename ≠ "" ∧ fr.filename ≠ st.filename
      · simp [observe, h0, h1, Prod.ext_iff] at h
      · by_cases h2 : hasKey st.chunks fr.index
        · simp [observe, h0, h1, h2, Prod.ext_iff] at h
        · simp [observe, h0, h1, h2, Prod.ext_iff] at h
          obtain ⟨hst, hb⟩ := h
          subst hst
          simp [observe, h0, h1, hasKey, List.any_append]
  refine ⟨main, ?_⟩
  intro n
  induction n with
  | zero => rfl
  | succ n ih =>
    rw [Function.iterate_succ_apply]
    have hstep : (observe st' (some fr)).1 = st' := by
      simp [main]
    rw [hstep]
    exact ih

/-- C8 witness: a one-frame session accepts its frame and the second
observation of the same frame is ignored with unchanged state. -/
theorem observe_duplicate_idempotent_witness :
    observe initialRState (some ⟨0, 1, "a", 1, "QQ"⟩) =
      (⟨[(0, ⟨0, 1, "a", 1, "QQ"⟩)], 1, "a"⟩, .accepted true) ∧
    observe ⟨[(0, ⟨0, 1, "a", 1, "QQ"⟩)], 1, "a"⟩ (some ⟨0, 1, "a", 1, "QQ"⟩) =
      (⟨[(0, ⟨0, 1, "a", 1, "QQ"⟩)], 1, "a"⟩, .duplicateIgnored) :=
  ⟨by decide,
   (observe_duplicate_idempotent initialRState
     ⟨[(0, ⟨0, 1, "a", 1, "QQ"⟩)], 1, "a"⟩ ⟨0, 1, "a", 1, "QQ"⟩ true (by decide)).1⟩

/-- C4 counterexample: a complete two-frame session whose decrypt
step fails is left exactly as it was, not reset: the chunk map, the
session total and the filename all survive the failed call, while the
claim requires the session to be reset to empty as after a successful
emit. -/
theorem finalize_decrypt_failure_keeps_state :
    finalize primRej stPair "pw" = (stPair, .decryptFailed) ∧
    stPair ≠ initialRState :=
  ⟨rfl, by decide⟩

/-- C4 amended: when the decrypt step of the finalize call fails, the
call reports the failure and leaves the session state, chunk map,
total and filename, unchanged; only the successful path resets the
session to empty. -/
theorem finalize_decrypt_failure_state_unchanged
    (P : CryptoPrim) (st : RState) (password : String) (e : DecErr)
    (hpw : password ≠ "")
    (hsize : (st.chunks.length : Int) = st.totalChunks)
    (hfail : decryptFile P
        (reconstructFile ((sortByIndex (st.chunks.map Prod.snd)).map Frame.data))
        password st.filename = .error e) :
    finalize P st password = (st, .decryptFailed) := by
  simp [finalize, hpw, hsize, hfail]

/-- C4 witness: the unchanged-state conclusion at the concrete
complete session and the always-rejecting primitive. -/
theorem finalize_decrypt_failure_state_unchanged_witness :
    finalize primRej stPair "pw" = (stPair, .decryptFailed) :=
  finalize_decrypt_failure_state_unchanged primRej stPair "pw" .cipherFailed
    (by decide) (by decide) rfl

/-- C9 counterexample: two sessions with the same total that miss
different indices (index 1 in the first, index 0 in the second)
produce byte-identical finalize outcomes carrying only the count of
missing chunks, so the outcome cannot report which indices are
missing, contrary to the claim. -/
theorem finalize_incomplete_reports_count_only :
    finalize primRej stOnlyA "pw" = (stOnlyA, .incomplete 1) ∧
    finalize primRej stOnlyB "pw" = (stOnlyB, .incomplete 1) := by
  decide

/-- C9 amended: finalizing while fewer distinct frames are stored
than the session total fails with the missing-chunks outcome
reporting the number, not the identity, of the missing indices, and
the failed call leaves the session state unchanged with no decryption
attempted. -/
theorem finalize_incomplete_unchanged
    (P : CryptoPrim) (st : RState) (password : String)
    (hpw : password ≠ "")
    (hlt : (st.chunks.length : Int) < st.totalChunks) :
    finalize P st password = (st, .incomplete (st.totalChunks - st.chunks.length)) := by
  have hne : (st.chunks.length : Int) ≠ st.totalChunks := by omega
  simp [finalize, hpw, hne]

/-- C9 witness: the incomplete branch at a concrete one-of-two
session. -/
theorem finalize_incomplete_unchanged_witness :
    finalize primRej stOnlyA "pw" = (stOnlyA, .incomplete (2 - 1)) :=
  (finalize_incomplete_unchanged primRej stOnlyA "pw" (by decide) (by decide)).trans
    (by decide)

/-- C6 counterexample: the text AAAA is valid radix-64 and decodes to
exactly three bytes, fewer than the 28-byte salt-plus-nonce minimum
the claim names; decryptFile does not fail with a malformed-envelope
outcome but proceeds to the decrypt stage and fails there with the
very same outcome that tag-verification failure produces. -/
theorem decryptFile_short_envelope_not_malformed :
    b64decodeS "AAAA" = some [0, 0, 0] ∧
    decryptFile primRej "AAAA" "pw" "f.bin" = .error .cipherFailed :=
  ⟨by decide, rfl⟩

/-- C6 amended: an envelope text that is not valid radix-64 fails at
the decode stage; but decryptFile has no minimum-length check: every
decodable envelope, however short, goes straight to key derivation
and decryption on the sliced salt, iv and ciphertext, and its only
possible outcomes are success or the same cipher-failure outcome that
tag verification failure produces. -/
theorem decryptFile_decode_and_no_length_check (P : CryptoPrim)
    (encryptedData password filename : String) :
    (b64decodeS encryptedData = none →
      decryptFile P encryptedData password filename = .error .badBase64) ∧
    (∀ bs, b64decodeS encryptedData = some bs →
      decryptFile P encryptedData password filename =
        match P.gcmDec (P.pbkdf2 password (bs.take 16) 100000)
            ((bs.drop 16).take 12) (bs.drop 28) with
        | none => .error .cipherFailed
        | some pt => .ok (pt, filename)) := by
  constructor
  · intro h
    simp [decryptFile, h]
  · intro bs h
    simp [decryptFile, h]

/-- C6 witness: the decode-failure branch at a one-character text and
the no-length-check conclusion at the three-byte envelope AAAA. -/
theorem decryptFile_decode_and_no_length_check_witness :
    decryptFile primRej "!" "pw" "f.bin" = .error .badBase64 ∧
    decryptFile primRej "AAAA" "pw" "f.bin" = .error .cipherFailed :=
  ⟨(decryptFile_decode_and_no_length_check primRej "!" "pw" "f.bin").1 (by decide),
   ((decryptFile_decode_and_no_length_check primRej "AAAA" "pw" "f.bin").2 [0, 0, 0]
     (by decide)).trans rfl⟩

end QRDrop
